/-
Verification of the PuzzleSolver repository's concrete puzzle states:
GridPegSolitairePuzzle (grid_peg_solitaire_puzzle.py), MNPuzzle
(mn_puzzle.py) and WordLadderPuzzle (word_ladder_puzzle.py).

The Python classes are shallowly embedded: grids (list[list[str]] /
tuple[tuple[str]]) become `List (List String)`, Python sets are modelled by
the list of their elements, and each method becomes a Lean function that
follows the source line by line.  A constructor whose asserts can fail is
modelled by a Bool validity predicate.
-/
import Mathlib

set_option maxHeartbeats 1000000
set_option maxRecDepth 8000

/-- `marker[r][c]` with an out-of-range default `""` (no Python string cell is
`""` in any reachable check: the source only compares cells against `"*"`,
`"."` and `"#"`, so the default never aliases a real comparison value). -/
def getCell (m : List (List String)) (r c : Nat) : String :=
  (m.getD r []).getD c ""

/-- `marker[r][c] = v` (in-place assignment; `List.set` is the identity out of
range, and the source only assigns in range). -/
def setCell (m : List (List String)) (r c : Nat) (v : String) : List (List String) :=
  m.set r ((m.getD r []).set c v)

/-- Number of cells of the grid holding value `v`. -/
def countVal (v : String) (m : List (List String)) : Nat :=
  (m.map (fun row => row.count v)).sum

/-- The four jump / slide directions of the grid puzzles. -/
inductive Direction where
  | left | right | down | up
deriving DecidableEq

/-- `GridPegSolitairePuzzle.__init__`: `_marker` (list of rows of `"*"`, `"."`,
`"#"`) and `_marker_set` (a Python set, modelled by the list of its elements). -/
structure GridPegSolitairePuzzle where
  marker : List (List String)
  marker_set : List String
deriving DecidableEq

namespace GridPegSolitairePuzzle

/-- The guard of `get_jump_indexes` for a peg at `(row, col)`: the source's
`col - 2 > 0` / `row - 2 > 0` (Python ints; for `col ≥ 0` the Nat truncated
difference agrees with the Python comparison) and `col + 2 < len(peg_line)` /
`row + 2 < len(self._marker)` bounds, then the two cell tests. -/
def jumpCond (m : List (List String)) (d : Direction) (row col rowLen : Nat) : Bool :=
  match d with
  | .left => decide (col - 2 > 0) && (getCell m row (col - 2) == ".")
      && (getCell m row (col - 1) == "*")
  | .right => decide (col + 2 < rowLen) && (getCell m row (col + 2) == ".")
      && (getCell m row (col + 1) == "*")
  | .down => decide (row + 2 < m.length) && (getCell m (row + 2) col == ".")
      && (getCell m (row + 1) col == "*")
  | .up => decide (row - 2 > 0) && (getCell m (row - 2) col == ".")
      && (getCell m (row - 1) col == "*")

/-- `GridPegSolitairePuzzle.get_jump_indexes`: scan the grid row-major and
collect the `(row, col)` of every peg that may jump in direction `d`. -/
def get_jump_indexes (m : List (List String)) (d : Direction) : List (Nat × Nat) :=
  (m.enum.map (fun rl =>
    rl.2.enum.filterMap (fun cp =>
      if cp.2 == "*" && jumpCond m d rl.1 cp.1 rl.2.length then some (rl.1, cp.1)
      else none))).flatten

/-- The common body of the four `extensions` loops: set the jumping peg's cell
and the jumped-over cell to `"."` and the landing cell to `"*"`, in the
source's assignment order. -/
def place_jump (m : List (List String)) (o mid land : Nat × Nat) : List (List String) :=
  setCell (setCell (setCell m o.1 o.2 ".") mid.1 mid.2 ".") land.1 land.2 "*"

/-- Origin, jumped-over and landing cell of a jump from `(r, c)` in direction
`d`, as the four `extensions` loops write them. -/
def jumpCells (d : Direction) (rc : Nat × Nat) : (Nat × Nat) × (Nat × Nat) × (Nat × Nat) :=
  match d with
  | .left => (rc, (rc.1, rc.2 - 1), (rc.1, rc.2 - 2))
  | .right => (rc, (rc.1, rc.2 + 1), (rc.1, rc.2 + 2))
  | .down => (rc, (rc.1 + 1, rc.2), (rc.1 + 2, rc.2))
  | .up => (rc, (rc.1 - 1, rc.2), (rc.1 - 2, rc.2))

/-- One successor board for a jump index in direction `d`. -/
def jumpBoard (m : List (List String)) (d : Direction) (rc : Nat × Nat) :
    List (List String) :=
  (fun cs => place_jump m cs.1 cs.2.1 cs.2.2) (jumpCells d rc)

/-- `GridPegSolitairePuzzle.extensions`: the right-jump boards, then the
left-jump, down-jump and up-jump boards, in the source's loop order. -/
def extensions (p : GridPegSolitairePuzzle) : List GridPegSolitairePuzzle :=
  ((get_jump_indexes p.marker .right).map
      (fun rc => GridPegSolitairePuzzle.mk (jumpBoard p.marker .right rc) p.marker_set)) ++
  ((get_jump_indexes p.marker .left).map
      (fun rc => GridPegSolitairePuzzle.mk (jumpBoard p.marker .left rc) p.marker_set)) ++
  ((get_jump_indexes p.marker .down).map
      (fun rc => GridPegSolitairePuzzle.mk (jumpBoard p.marker .down rc) p.marker_set)) ++
  ((get_jump_indexes p.marker .up).map
      (fun rc => GridPegSolitairePuzzle.mk (jumpBoard p.marker .up rc) p.marker_set))

/-- `GridPegSolitairePuzzle.is_solved`: exactly one `"*"` cell remains. -/
def is_solved (p : GridPegSolitairePuzzle) : Bool :=
  countVal "*" p.marker == 1

/-- The asserts of `GridPegSolitairePuzzle.__init__`: a nonempty list of rows,
every later row as long as the first, every cell in `marker_set`, and
`marker_set ⊆ {"*", ".", "#"}`. -/
def valid (marker : List (List String)) (marker_set : List String) : Bool :=
  decide (0 < marker.length) &&
  marker.tail.all (fun x => x.length == (marker.headD []).length) &&
  marker.all (fun row => row.all (fun x => marker_set.contains x)) &&
  marker_set.all (fun x => x == "*" || x == "." || x == "#")

/-- The one-move successor relation of the peg-solitaire state space. -/
def gpStep (p q : GridPegSolitairePuzzle) : Prop := q ∈ p.extensions

end GridPegSolitairePuzzle

/-- The 5×5 doctest board: all pegs, the single empty cell at row 3, column 2. -/
def grid5 : List (List String) :=
  [["*", "*", "*", "*", "*"],
   ["*", "*", "*", "*", "*"],
   ["*", "*", "*", "*", "*"],
   ["*", "*", ".", "*", "*"],
   ["*", "*", "*", "*", "*"]]

/-- The 5×5 board whose single empty cell is the central cell (2,2). -/
def grid5central : List (List String) :=
  [["*", "*", "*", "*", "*"],
   ["*", "*", "*", "*", "*"],
   ["*", "*", ".", "*", "*"],
   ["*", "*", "*", "*", "*"],
   ["*", "*", "*", "*", "*"]]


/-- `MNPuzzle.__init__`: current configuration `from_grid` and target
configuration `to_grid` (tuples of tuples of symbol strings; the derived
`n`/`m` fields are `from_grid.length` and `(from_grid.headD []).length`). -/
structure MNPuzzle where
  from_grid : List (List String)
  to_grid : List (List String)
deriving DecidableEq

namespace MNPuzzle

/-- The blank-position scan of `MNPuzzle.extensions`: the nested loop keeps
overwriting `empty_index`, so the result is the position of the last `"*"` in
row-major order, or `none` when the grid has no `"*"` (in Python the later
read of `empty_index` then raises `UnboundLocalError`). -/
def find_empty_index (grid : List (List String)) : Option (Nat × Nat) :=
  grid.enum.foldl (fun acc al =>
    al.2.enum.foldl (fun acc2 iv =>
      if iv.2 == "*" then some (al.1, iv.1) else acc2) acc) none

/-- The simultaneous Python swap
`grid[r][c], grid[r'][c'] = grid[r'][c'], grid[r][c]`. -/
def swapCells (g : List (List String)) (r c r' c' : Nat) : List (List String) :=
  setCell (setCell g r c (getCell g r' c')) r' c' (getCell g r c)

/-- The four candidate grids of `MNPuzzle.extensions` for the blank at
`(row, col)`, in the source's order: column + 1, column − 1, row − 1, row + 1,
each guarded by the source's bound check.  The source's final guard
`if grid != self.from_grid` compares a `list` of `list`s with a `tuple` of
`tuple`s and is therefore always true in Python, so it is modelled as always
passing. -/
def moves_at (p : MNPuzzle) (row col : Nat) : List MNPuzzle :=
  ((if col + 1 < (p.from_grid.getD row []).length then
      [swapCells p.from_grid row col row (col + 1)] else []) ++
   (if 1 ≤ col then
      [swapCells p.from_grid row col row (col - 1)] else []) ++
   (if 1 ≤ row then
      [swapCells p.from_grid row col (row - 1) col] else []) ++
   (if row + 1 < p.from_grid.length then
      [swapCells p.from_grid row col (row + 1) col] else [])).map
    (fun g => MNPuzzle.mk g p.to_grid)

/-- `MNPuzzle.extensions`: `none` models the `UnboundLocalError` raised when
`from_grid` has no `"*"`. -/
def extensions (p : MNPuzzle) : Option (List MNPuzzle) :=
  match find_empty_index p.from_grid with
  | none => none
  | some rc => some (p.moves_at rc.1 rc.2)

/-- `MNPuzzle.is_solved`. -/
def is_solved (p : MNPuzzle) : Bool :=
  p.from_grid == p.to_grid

/-- The asserts of `MNPuzzle.__init__`: `from_grid` nonempty, every row of
`from_grid` as long as its first row, and every row of `to_grid` as long as
`to_grid`'s first row.  No assert relates the dimensions of `from_grid` to
those of `to_grid`. -/
def valid (from_grid to_grid : List (List String)) : Bool :=
  decide (0 < from_grid.length) &&
  from_grid.all (fun r => r.length == (from_grid.headD []).length) &&
  to_grid.all (fun r => r.length == (to_grid.headD []).length)

/-- Index of the last `"*"` of a row-suffix whose first cell has index `k`. -/
def lastStarFrom (k : Nat) (line : List String) : Option Nat :=
  match line with
  | [] => none
  | v :: rest =>
    match lastStarFrom (k + 1) rest with
    | some i => some i
    | none => if v == "*" then some k else none

/-- Position of the last `"*"` (row-major) of a grid-suffix whose first row
has index `k`. -/
def lastStarPosFrom (k : Nat) (rows : List (List String)) : Option (Nat × Nat) :=
  match rows with
  | [] => none
  | line :: rest =>
    match lastStarPosFrom (k + 1) rest with
    | some q => some q
    | none =>
      match lastStarFrom 0 line with
      | some i => some (k, i)
      | none => none

end MNPuzzle

/-- `WordLadderPuzzle.__init__`: `_from_word`, `_to_word` and the dictionary
`_word_set` (a Python set of strings, modelled by the list of its elements).
The constructor has no assert: every input is accepted. -/
structure WordLadderPuzzle where
  from_word : String
  to_word : String
  word_set : List String
deriving DecidableEq

namespace WordLadderPuzzle

/-- `self._chars`: the characters usable for one-character changes. -/
def chars : List Char := "abcdefghijklmnopqrstuvwxyz".toList

/-- The candidate list of `WordLadderPuzzle.extensions`: for each position of
`from_word` (outer loop) and each letter of `chars` (inner loop), `from_word`
with that position overwritten by that letter. -/
def word_configurations (from_word : List Char) : List (List Char) :=
  ((List.range from_word.length).map (fun index =>
    chars.map (fun letter => from_word.set index letter))).flatten

/-- `WordLadderPuzzle.extensions`: intersect the candidate configurations with
the dictionary (`set(word_configurations) & self._word_set`, modelled as the
deduplicated candidates that the dictionary contains), drop `from_word`
itself, and build a puzzle from each remaining word with the receiver's
`to_word` and `word_set`. -/
def extensions (p : WordLadderPuzzle) : List WordLadderPuzzle :=
  let configs := (word_configurations p.from_word.toList).map (fun l => String.mk l)
  let possible_words := configs.dedup.filter (fun w => p.word_set.contains w)
  (possible_words.filter (fun w => w != p.from_word)).map
    (fun w => WordLadderPuzzle.mk w p.to_word p.word_set)

/-- `WordLadderPuzzle.is_solved`. -/
def is_solved (p : WordLadderPuzzle) : Bool :=
  p.from_word == p.to_word

/-- `WordLadderPuzzle.__init__` runs no assert: construction never fails. -/
def valid (_from_word _to_word : String) (_ws : List String) : Bool :=
  true

end WordLadderPuzzle

/-- The doctest dictionary of `WordLadderPuzzle.extensions`. -/
def doctestWords : List String :=
  ["lost", "cast", "cost", "happy", "sappy", "nappy", "boss", "floss"]

/-- The 2×3 doctest sliding-tile puzzle: blank at (0,0), target with the blank
at (1,2). -/
def mn23 : MNPuzzle :=
  MNPuzzle.mk [["*", "2", "3"], ["1", "4", "5"]] [["1", "2", "3"], ["4", "5", "*"]]

/-! ### Claim-side jump rule for grid peg solitaire (C1) -/

namespace GridPegSolitairePuzzle

/-- Spec-side (from the claim): a peg at `(row, col)` may jump in direction
`d` when the adjacent cell in that direction holds a peg and the cell two
steps away is empty and inside the board — the landing cell may lie in row 0
or column 0 (`2 ≤ col` / `2 ≤ row`, where the source instead requires
`col - 2 > 0` / `row - 2 > 0`). -/
def claimJumpCond (m : List (List String)) (d : Direction) (row col : Nat) : Bool :=
  match d with
  | .left => decide (2 ≤ col) && (getCell m row (col - 2) == ".")
      && (getCell m row (col - 1) == "*")
  | .right => decide (col + 2 < (m.getD row []).length) && (getCell m row (col + 2) == ".")
      && (getCell m row (col + 1) == "*")
  | .down => decide (row + 2 < m.length) && (getCell m (row + 2) col == ".")
      && (getCell m (row + 1) col == "*")
  | .up => decide (2 ≤ row) && (getCell m (row - 2) col == ".")
      && (getCell m (row - 1) col == "*")

/-- Spec-side (from the claim): every board obtainable from `m` by one legal
jump, scanning pegs row-major and the four directions in the source's order. -/
def claimJumpBoards (m : List (List String)) : List (List (List String)) :=
  ((List.range m.length).map (fun r =>
    ((List.range ((m.getD r []).length)).map (fun c =>
      (if getCell m r c == "*" && claimJumpCond m .right r c
        then [jumpBoard m .right (r, c)] else []) ++
      (if getCell m r c == "*" && claimJumpCond m .left r c
        then [jumpBoard m .left (r, c)] else []) ++
      (if getCell m r c == "*" && claimJumpCond m .down r c
        then [jumpBoard m .down (r, c)] else []) ++
      (if getCell m r c == "*" && claimJumpCond m .up r c
        then [jumpBoard m .up (r, c)] else []))).flatten)).flatten

end GridPegSolitairePuzzle

/-- Spec-side (from the claim): `(r', c')` is a cell horizontally or
vertically adjacent to `(r, c)`. -/
def orthAdjacent (r c r' c' : Nat) : Prop :=
  (r' = r ∧ c' = c + 1) ∨ (r' = r ∧ c' + 1 = c) ∨
  (r' + 1 = r ∧ c' = c) ∨ (r' = r + 1 ∧ c' = c)

/-- Spec-side (from the claim): number of positions at which two words of
equal length differ. -/
def diff_positions (w v : List Char) : Nat :=
  ((w.zip v).filter (fun pr => pr.1 != pr.2)).length

/-! ### Spec-side definitions used to state the claims -/

namespace GridPegSolitairePuzzle

/-- The in-range cell values and pairwise distinctness that every jump index
produced by `get_jump_indexes` guarantees for its origin, jumped-over and
landing cells. -/
def jumpOK (m : List (List String)) (o mid land : Nat × Nat) : Prop :=
  o.1 < m.length ∧ o.2 < (m.getD o.1 []).length ∧
  mid.1 < m.length ∧ mid.2 < (m.getD mid.1 []).length ∧
  land.1 < m.length ∧ land.2 < (m.getD land.1 []).length ∧
  getCell m o.1 o.2 = "*" ∧ getCell m mid.1 mid.2 = "*" ∧
  getCell m land.1 land.2 = "." ∧
  o ≠ mid ∧ o ≠ land ∧ mid ≠ land

/-- The lower bound on the scanning coordinate that the source's
`col - 2 > 0` / `row - 2 > 0` guards enforce. -/
def dirBound (d : Direction) (rc : Nat × Nat) : Prop :=
  match d with
  | .left => 3 ≤ rc.2
  | .right => True
  | .down => True
  | .up => 3 ≤ rc.1

end GridPegSolitairePuzzle

/-! ### Sanity examples on the doctest inputs -/

example :
    (GridPegSolitairePuzzle.extensions
      (GridPegSolitairePuzzle.mk grid5 ["*", ".", "#"])).length = 3 := by
  decide

example :
    ((WordLadderPuzzle.mk "cost" "lost" doctestWords).extensions.map
      WordLadderPuzzle.from_word).dedup.length = 2 := by
  decide

example :
    (WordLadderPuzzle.mk "cast" "lost" doctestWords) ∈
      (WordLadderPuzzle.mk "cost" "lost" doctestWords).extensions := by
  decide

example :
    (MNPuzzle.extensions (MNPuzzle.mk [["*", "2", "3"], ["1", "4", "5"]]
      [["1", "2", "3"], ["4", "5", "*"]])).map List.length = some 2 := by
  decide

example :
    MNPuzzle.extensions (MNPuzzle.mk [["*", "*"]] [["*", "*"]]) =
      some [MNPuzzle.mk [["*", "*"]] [["*", "*"]]] := by
  decide


/-! ### Cell-level lemmas about `getCell`, `setCell` and `countVal` -/

theorem length_setCell (m : List (List String)) (r c : Nat) (v : String) :
    (setCell m r c v).length = m.length := by
  simp [setCell]

theorem getElem?_eq_some_getD {α : Type} {l : List α} {i : Nat} (d : α) (h : i < l.length) :
    l[i]? = some (l.getD i d) := by
  rw [List.getD_eq_getElem?_getD, List.getElem?_eq_getElem h]
  rfl

theorem rowlen_setCell (m : List (List String)) (r c : Nat) (v : String) (r' : Nat) :
    ((setCell m r c v).getD r' []).length = (m.getD r' []).length := by
  rcases eq_or_ne r r' with h | h
  · subst h
    by_cases hr : r < m.length
    · rw [setCell, List.getD_eq_getElem?_getD, List.getElem?_set_self',
        getElem?_eq_some_getD [] hr]
      simp
    · rw [setCell, List.getD_eq_getElem?_getD,
        List.getElem?_eq_none (by simpa using le_of_not_lt hr),
        List.getD_eq_getElem?_getD, List.getElem?_eq_none (le_of_not_lt hr)]
  · simp [setCell, List.getD_eq_getElem?_getD, List.getElem?_set_ne h]

theorem getCell_setCell_ne (m : List (List String)) {r c r' c' : Nat} (v : String)
    (h : (r', c') ≠ (r, c)) :
    getCell (setCell m r c v) r' c' = getCell m r' c' := by
  rcases eq_or_ne r r' with hr | hr
  · subst hr
    have hc : c ≠ c' := by
      intro hc
      exact h (by simp [hc])
    simp only [getCell, setCell, List.getD_eq_getElem?_getD, List.getElem?_set_self']
    cases hm : m[r]? with
    | none => simp
    | some row =>
      simp [List.getD_eq_getElem?_getD, hm, List.getElem?_set_ne hc]
  · simp [getCell, setCell, List.getD_eq_getElem?_getD, List.getElem?_set_ne hr]

theorem getCell_setCell_self (m : List (List String)) {r c : Nat} (v : String)
    (hr : r < m.length) (hc : c < (m.getD r []).length) :
    getCell (setCell m r c v) r c = v := by
  unfold getCell setCell
  rw [List.getD_eq_getElem?_getD (m.set r ((m.getD r []).set c v)) r [],
    List.getElem?_set_self', getElem?_eq_some_getD [] hr]
  show ((m.getD r []).set c v).getD c "" = v
  rw [List.getD_eq_getElem?_getD, List.getElem?_set_eq_of_lt _ hc]
  rfl

theorem getCell_in_range {m : List (List String)} {r c : Nat}
    (h : getCell m r c ≠ "") :
    r < m.length ∧ c < (m.getD r []).length := by
  by_cases hr : r < m.length
  · refine ⟨hr, ?_⟩
    by_cases hc : c < (m.getD r []).length
    · exact hc
    · exact absurd (List.getD_eq_default _ _ (by omega)) h
  · exfalso
    apply h
    unfold getCell
    rw [List.getD_eq_getElem?_getD m r [], List.getElem?_eq_none (le_of_not_lt hr)]
    rfl

theorem countVal_set_row (a : String) (m : List (List String)) (row' : List String) :
    ∀ r : Nat, r < m.length →
      countVal a (m.set r row') + (m.getD r []).count a = countVal a m + row'.count a := by
  induction m with
  | nil => intro r hr; simp at hr
  | cons x xs ih =>
    intro r hr
    cases r with
    | zero => simp [countVal]; omega
    | succ n =>
      have hn : n < xs.length := by simpa using hr
      have := ih n hn
      simp only [List.set, countVal, List.map_cons, List.sum_cons, List.getD_cons_succ]
      simp only [countVal] at this
      omega

theorem count_getD_pos {l : List String} {c : Nat} {a : String}
    (hc : c < l.length) (hv : l.getD c "" = a) : 1 ≤ l.count a := by
  have hm : a ∈ l := by
    rw [List.getD_eq_getElem?_getD, List.getElem?_eq_getElem hc] at hv
    rw [show a = l[c] from by simpa using hv.symm]
    exact List.getElem_mem hc
  exact List.one_le_count_iff.mpr hm

theorem countVal_setCell (a v : String) (m : List (List String)) {r c : Nat}
    (hr : r < m.length) (hc : c < (m.getD r []).length) :
    countVal a (setCell m r c v) + (if getCell m r c = a then 1 else 0)
      = countVal a m + (if v = a then 1 else 0) := by
  have h1 := countVal_set_row a m ((m.getD r []).set c v) r hr
  have h2 := List.count_set v a (m.getD r []) c hc
  have h3 : (m.getD r [])[c] = getCell m r c := by
    unfold getCell
    rw [List.getD_eq_getElem?_getD (m.getD r []) c, List.getElem?_eq_getElem hc]
    rfl
  simp only [beq_iff_eq] at h2
  rw [h3] at h2
  have hS : countVal a (setCell m r c v) = countVal a (m.set r ((m.getD r []).set c v)) := rfl
  by_cases hcell : getCell m r c = a
  · have hp : 1 ≤ (m.getD r []).count a := count_getD_pos hc (by simpa [getCell] using hcell)
    by_cases hva : v = a
    · rw [hS, if_pos hcell, if_pos hva]
      rw [if_pos hcell, if_pos hva] at h2
      omega
    · rw [hS, if_pos hcell, if_neg hva]
      rw [if_pos hcell, if_neg hva] at h2
      omega
  · by_cases hva : v = a
    · rw [hS, if_neg hcell, if_pos hva]
      rw [if_neg hcell, if_pos hva] at h2
      omega
    · rw [hS, if_neg hcell, if_neg hva]
      rw [if_neg hcell, if_neg hva] at h2
      omega

/-! ### Facts about `get_jump_indexes` and `place_jump` -/

namespace GridPegSolitairePuzzle

theorem mem_get_jump_indexes {m : List (List String)} {d : Direction} {rc : Nat × Nat}
    (h : rc ∈ get_jump_indexes m d) :
    rc.1 < m.length ∧ rc.2 < (m.getD rc.1 []).length ∧ getCell m rc.1 rc.2 = "*" ∧
      jumpCond m d rc.1 rc.2 ((m.getD rc.1 []).length) = true := by
  unfold get_jump_indexes at h
  rw [List.mem_flatten] at h
  obtain ⟨l, hl, hrc⟩ := h
  rw [List.mem_map] at hl
  obtain ⟨rl, hrl, rfl⟩ := hl
  rw [List.mem_filterMap] at hrc
  obtain ⟨cp, hcp, hsome⟩ := hrc
  by_cases hcond : (cp.2 == "*" && jumpCond m d rl.1 cp.1 rl.2.length) = true
  case neg => rw [if_neg hcond] at hsome; exact absurd hsome (by simp)
  rw [if_pos hcond] at hsome
  obtain ⟨rfl⟩ : (rl.1, cp.1) = rc := by simpa using hsome
  have hrow := List.mem_enum_iff_getElem?.mp hrl
  obtain ⟨hr1, hr2⟩ := List.getElem?_eq_some.mp hrow
  have hcol := List.mem_enum_iff_getElem?.mp hcp
  obtain ⟨hc1, hc2⟩ := List.getElem?_eq_some.mp hcol
  have hgd : m.getD rl.1 [] = rl.2 := by
    rw [List.getD_eq_getElem?_getD, hrow]
    rfl
  have hgc : getCell m rl.1 cp.1 = cp.2 := by
    unfold getCell
    rw [hgd, List.getD_eq_getElem?_getD, List.getElem?_eq_getElem hc1, hc2]
    rfl
  rw [Bool.and_eq_true, beq_iff_eq] at hcond
  refine ⟨hr1, by rw [hgd]; exact hc1, by rw [hgc]; exact hcond.1, ?_⟩
  rw [hgd]
  exact hcond.2

theorem jumpOK_of_mem {m : List (List String)} {d : Direction} {rc : Nat × Nat}
    (h : rc ∈ get_jump_indexes m d) :
    jumpOK m (jumpCells d rc).1 (jumpCells d rc).2.1 (jumpCells d rc).2.2 ∧
      dirBound d rc := by
  obtain ⟨hr, hc, hstar, hcond⟩ := mem_get_jump_indexes h
  have hmid : ∀ r' c', getCell m r' c' = "*" →
      r' < m.length ∧ c' < (m.getD r' []).length :=
    fun r' c' hv => getCell_in_range (by rw [hv]; decide)
  have hland : ∀ r' c', getCell m r' c' = "." →
      r' < m.length ∧ c' < (m.getD r' []).length :=
    fun r' c' hv => getCell_in_range (by rw [hv]; decide)
  cases d with
  | left =>
    simp only [jumpCond, Bool.and_eq_true, decide_eq_true_eq, beq_iff_eq] at hcond
    obtain ⟨⟨hb, hdot⟩, hstar2⟩ := hcond
    have h1 := hland rc.1 (rc.2 - 2) hdot
    have h2 := hmid rc.1 (rc.2 - 1) hstar2
    refine ⟨⟨hr, hc, h2.1, h2.2, h1.1, h1.2, hstar, hstar2, hdot, ?_, ?_, ?_⟩, by
      simp only [dirBound]; omega⟩ <;>
      simp [jumpCells, Prod.ext_iff] <;> omega
  | right =>
    simp only [jumpCond, Bool.and_eq_true, decide_eq_true_eq, beq_iff_eq] at hcond
    obtain ⟨⟨hb, hdot⟩, hstar2⟩ := hcond
    have h1 := hland rc.1 (rc.2 + 2) hdot
    have h2 := hmid rc.1 (rc.2 + 1) hstar2
    refine ⟨⟨hr, hc, h2.1, h2.2, h1.1, h1.2, hstar, hstar2, hdot, ?_, ?_, ?_⟩, trivial⟩ <;>
      simp [jumpCells, Prod.ext_iff]
  | down =>
    simp only [jumpCond, Bool.and_eq_true, decide_eq_true_eq, beq_iff_eq] at hcond
    obtain ⟨⟨hb, hdot⟩, hstar2⟩ := hcond
    have h1 := hland (rc.1 + 2) rc.2 hdot
    have h2 := hmid (rc.1 + 1) rc.2 hstar2
    refine ⟨⟨hr, hc, h2.1, h2.2, h1.1, h1.2, hstar, hstar2, hdot, ?_, ?_, ?_⟩, trivial⟩ <;>
      simp [jumpCells, Prod.ext_iff]
  | up =>
    simp only [jumpCond, Bool.and_eq_true, decide_eq_true_eq, beq_iff_eq] at hcond
    obtain ⟨⟨hb, hdot⟩, hstar2⟩ := hcond
    have h1 := hland (rc.1 - 2) rc.2 hdot
    have h2 := hmid (rc.1 - 1) rc.2 hstar2
    refine ⟨⟨hr, hc, h2.1, h2.2, h1.1, h1.2, hstar, hstar2, hdot, ?_, ?_, ?_⟩, by
      simp only [dirBound]; omega⟩ <;>
      simp [jumpCells, Prod.ext_iff] <;> omega

end GridPegSolitairePuzzle

namespace GridPegSolitairePuzzle

theorem pair_ne {x y : Nat × Nat} (h : x ≠ y) : (x.1, x.2) ≠ (y.1, y.2) := by
  simpa using h

theorem getCell_place_jump (m : List (List String)) {o mid land : Nat × Nat}
    (hOK : jumpOK m o mid land) (x : Nat × Nat) :
    getCell (place_jump m o mid land) x.1 x.2 =
      if x = land then "*" else if x = mid then "." else if x = o then "."
      else getCell m x.1 x.2 := by
  obtain ⟨ho1, ho2, hm1, hm2, hl1, hl2, hvo, hvm, hvl, hom, hol, hml⟩ := hOK
  by_cases hxl : x = land
  · subst hxl
    rw [if_pos rfl]
    apply getCell_setCell_self
    · rw [length_setCell, length_setCell]; exact hl1
    · rw [rowlen_setCell, rowlen_setCell]; exact hl2
  · rw [if_neg hxl]
    unfold place_jump
    rw [getCell_setCell_ne _ _ (pair_ne hxl)]
    by_cases hxm : x = mid
    · subst hxm
      rw [if_pos rfl]
      apply getCell_setCell_self
      · rw [length_setCell]; exact hm1
      · rw [rowlen_setCell]; exact hm2
    · rw [if_neg hxm, getCell_setCell_ne _ _ (pair_ne hxm)]
      by_cases hxo : x = o
      · subst hxo
        rw [if_pos rfl]
        exact getCell_setCell_self m _ ho1 ho2
      · rw [if_neg hxo, getCell_setCell_ne _ _ (pair_ne hxo)]

theorem getCell_place_jump_land (m : List (List String)) {o mid land : Nat × Nat}
    (hOK : jumpOK m o mid land) :
    getCell (place_jump m o mid land) land.1 land.2 = "*" := by
  have h := getCell_place_jump m hOK land
  rwa [if_pos rfl] at h

theorem getCell_place_jump_mid (m : List (List String)) {o mid land : Nat × Nat}
    (hOK : jumpOK m o mid land) :
    getCell (place_jump m o mid land) mid.1 mid.2 = "." := by
  have h := getCell_place_jump m hOK mid
  rwa [if_neg hOK.2.2.2.2.2.2.2.2.2.2.2, if_pos rfl] at h

theorem getCell_place_jump_origin (m : List (List String)) {o mid land : Nat × Nat}
    (hOK : jumpOK m o mid land) :
    getCell (place_jump m o mid land) o.1 o.2 = "." := by
  have h := getCell_place_jump m hOK o
  rwa [if_neg hOK.2.2.2.2.2.2.2.2.2.2.1, if_neg hOK.2.2.2.2.2.2.2.2.2.1, if_pos rfl] at h

theorem place_jump_cases {m : List (List String)} {o1 m1 l1 o2 m2 l2 : Nat × Nat}
    (f1 : jumpOK m o1 m1 l1) (f2 : jumpOK m o2 m2 l2)
    (heq : place_jump m o1 m1 l1 = place_jump m o2 m2 l2) :
    l1 = l2 ∧ ((o1 = o2 ∧ m1 = m2) ∨ (o1 = m2 ∧ m1 = o2)) := by
  have hvo1 : getCell m o1.1 o1.2 = "*" := f1.2.2.2.2.2.2.1
  have hvm1 : getCell m m1.1 m1.2 = "*" := f1.2.2.2.2.2.2.2.1
  have hvl1 : getCell m l1.1 l1.2 = "." := f1.2.2.2.2.2.2.2.2.1
  have hom1 : o1 ≠ m1 := f1.2.2.2.2.2.2.2.2.2.1
  have e1 : getCell (place_jump m o2 m2 l2) l1.1 l1.2 = "*" := by
    rw [← heq]; exact getCell_place_jump_land m f1
  have hll : l1 = l2 := by
    by_contra hne
    rw [getCell_place_jump m f2 l1, if_neg hne] at e1
    by_cases h2 : l1 = m2
    · rw [if_pos h2] at e1; exact absurd e1 (by decide)
    · rw [if_neg h2] at e1
      by_cases h3 : l1 = o2
      · rw [if_pos h3] at e1; exact absurd e1 (by decide)
      · rw [if_neg h3, hvl1] at e1; exact absurd e1 (by decide)
  have e2 : getCell (place_jump m o2 m2 l2) o1.1 o1.2 = "." := by
    rw [← heq]; exact getCell_place_jump_origin m f1
  have ho : o1 = o2 ∨ o1 = m2 := by
    by_contra hcon
    push_neg at hcon
    rw [getCell_place_jump m f2 o1] at e2
    by_cases hL : o1 = l2
    · rw [if_pos hL] at e2; exact absurd e2 (by decide)
    · rw [if_neg hL, if_neg hcon.2, if_neg hcon.1, hvo1] at e2
      exact absurd e2 (by decide)
  have e3 : getCell (place_jump m o2 m2 l2) m1.1 m1.2 = "." := by
    rw [← heq]; exact getCell_place_jump_mid m f1
  have hm : m1 = o2 ∨ m1 = m2 := by
    by_contra hcon
    push_neg at hcon
    rw [getCell_place_jump m f2 m1] at e3
    by_cases hL : m1 = l2
    · rw [if_pos hL] at e3; exact absurd e3 (by decide)
    · rw [if_neg hL, if_neg hcon.2, if_neg hcon.1, hvm1] at e3
      exact absurd e3 (by decide)
  refine ⟨hll, ?_⟩
  rcases ho with h | h
  · rcases hm with h2 | h2
    · exact absurd (h.trans h2.symm) hom1
    · exact Or.inl ⟨h, h2⟩
  · rcases hm with h2 | h2
    · exact Or.inr ⟨h, h2⟩
    · exact absurd (h.trans h2.symm) hom1

theorem jump_inj {m : List (List String)} {d1 d2 : Direction} {rc1 rc2 : Nat × Nat}
    (h1 : rc1 ∈ get_jump_indexes m d1) (h2 : rc2 ∈ get_jump_indexes m d2)
    (heq : jumpBoard m d1 rc1 = jumpBoard m d2 rc2) :
    d1 = d2 ∧ rc1 = rc2 := by
  obtain ⟨f1, hb1⟩ := jumpOK_of_mem h1
  obtain ⟨f2, hb2⟩ := jumpOK_of_mem h2
  obtain ⟨hl, hpair⟩ := place_jump_cases f1 f2 heq
  rcases hpair with ⟨ho, hm⟩ | ⟨ho, hm⟩ <;> cases d1 <;> cases d2 <;>
    simp [jumpCells, Prod.ext_iff, dirBound] at hl ho hm hb1 hb2 ⊢ <;> omega

end GridPegSolitairePuzzle

theorem le_fst_of_mem_enumFrom' {α : Type} {y : Nat × α} {l : List α} {k : Nat}
    (h : y ∈ l.enumFrom k) : k ≤ y.1 := by
  induction l generalizing k with
  | nil => simp at h
  | cons x xs ih =>
    rw [List.enumFrom_cons] at h
    rcases List.mem_cons.mp h with h | h
    · rw [h]
    · exact Nat.le_of_succ_le (ih h)

theorem pairwise_fst_lt_enumFrom {α : Type} (l : List α) (k : Nat) :
    (l.enumFrom k).Pairwise (fun a b => a.1 < b.1) := by
  induction l generalizing k with
  | nil => simp
  | cons x xs ih =>
    rw [List.enumFrom_cons]
    refine List.Pairwise.cons ?_ (ih (k + 1))
    intro y hy
    exact Nat.lt_of_succ_le (le_fst_of_mem_enumFrom' hy)

namespace GridPegSolitairePuzzle

theorem scan_some {m : List (List String)} {d : Direction} {r0 len : Nat}
    {cp : Nat × String} {x : Nat × Nat}
    (h : (if cp.2 == "*" && jumpCond m d r0 cp.1 len then some (r0, cp.1)
          else none) = some x) :
    x = (r0, cp.1) := by
  by_cases hc : (cp.2 == "*" && jumpCond m d r0 cp.1 len) = true
  · rw [if_pos hc] at h
    exact (Option.some_inj.mp h).symm
  · rw [if_neg hc] at h
    exact absurd h (by simp)

theorem nodup_get_jump_indexes (m : List (List String)) (d : Direction) :
    (get_jump_indexes m d).Nodup := by
  unfold get_jump_indexes
  rw [List.nodup_flatten]
  constructor
  · intro l hl
    rw [List.mem_map] at hl
    obtain ⟨rl, hrl, rfl⟩ := hl
    show List.Pairwise _ _
    rw [List.pairwise_filterMap]
    refine List.Pairwise.imp ?_ (pairwise_fst_lt_enumFrom rl.2 0)
    intro a b hab x hx y hy
    rw [scan_some hx, scan_some hy]
    simp only [ne_eq, Prod.mk.injEq, not_and]
    intro _
    omega
  · rw [List.pairwise_map]
    refine List.Pairwise.imp ?_ (pairwise_fst_lt_enumFrom m 0)
    intro a b hab
    intro x hxa hxb
    rw [List.mem_filterMap] at hxa hxb
    obtain ⟨cpa, _, ha⟩ := hxa
    obtain ⟨cpb, _, hb⟩ := hxb
    have e1 := scan_some ha
    have e2 := scan_some hb
    rw [e1] at e2
    have : a.1 = b.1 := (Prod.mk.injEq _ _ _ _).mp e2 |>.1
    omega

theorem mem_extensions {p q : GridPegSolitairePuzzle} :
    q ∈ p.extensions ↔ ∃ d rc, rc ∈ get_jump_indexes p.marker d ∧
      q = GridPegSolitairePuzzle.mk (jumpBoard p.marker d rc) p.marker_set := by
  unfold extensions
  simp only [List.mem_append, List.mem_map]
  constructor
  · rintro (((⟨rc, h, rfl⟩ | ⟨rc, h, rfl⟩) | ⟨rc, h, rfl⟩) | ⟨rc, h, rfl⟩)
    · exact ⟨.right, rc, h, rfl⟩
    · exact ⟨.left, rc, h, rfl⟩
    · exact ⟨.down, rc, h, rfl⟩
    · exact ⟨.up, rc, h, rfl⟩
  · rintro ⟨d, rc, h, rfl⟩
    cases d with
    | right => exact Or.inl (Or.inl (Or.inl ⟨rc, h, rfl⟩))
    | left => exact Or.inl (Or.inl (Or.inr ⟨rc, h, rfl⟩))
    | down => exact Or.inl (Or.inr ⟨rc, h, rfl⟩)
    | up => exact Or.inr ⟨rc, h, rfl⟩

theorem nodup_map_dir (p : GridPegSolitairePuzzle) (d : Direction) :
    ((get_jump_indexes p.marker d).map
      (fun rc => GridPegSolitairePuzzle.mk (jumpBoard p.marker d rc) p.marker_set)).Nodup := by
  refine List.Nodup.map_on ?_ (nodup_get_jump_indexes p.marker d)
  intro x hx y hy hxy
  have hb : jumpBoard p.marker d x = jumpBoard p.marker d y := by
    have := (GridPegSolitairePuzzle.mk.injEq _ _ _ _).mp hxy
    exact this.1
  exact (jump_inj hx hy hb).2

theorem disjoint_map_dir (p : GridPegSolitairePuzzle) {d1 d2 : Direction} (hne : d1 ≠ d2) :
    List.Disjoint
      ((get_jump_indexes p.marker d1).map
        (fun rc => GridPegSolitairePuzzle.mk (jumpBoard p.marker d1 rc) p.marker_set))
      ((get_jump_indexes p.marker d2).map
        (fun rc => GridPegSolitairePuzzle.mk (jumpBoard p.marker d2 rc) p.marker_set)) := by
  intro q hq1 hq2
  rw [List.mem_map] at hq1 hq2
  obtain ⟨rc1, h1, e1⟩ := hq1
  obtain ⟨rc2, h2, e2⟩ := hq2
  have hb : jumpBoard p.marker d1 rc1 = jumpBoard p.marker d2 rc2 := by
    have := e1.trans e2.symm
    exact ((GridPegSolitairePuzzle.mk.injEq _ _ _ _).mp this).1
  exact hne (jump_inj h1 h2 hb).1

theorem nodup_extensions (p : GridPegSolitairePuzzle) : p.extensions.Nodup := by
  unfold extensions
  rw [List.nodup_append, List.nodup_append, List.nodup_append]
  refine ⟨⟨⟨nodup_map_dir p .right, nodup_map_dir p .left,
    disjoint_map_dir p (show Direction.right ≠ .left by decide)⟩,
    nodup_map_dir p .down, ?_⟩, nodup_map_dir p .up, ?_⟩
  · intro q hq1 hq2
    rw [List.mem_append] at hq1
    rcases hq1 with hq1 | hq1
    · exact disjoint_map_dir p (show Direction.right ≠ .down by decide) hq1 hq2
    · exact disjoint_map_dir p (show Direction.left ≠ .down by decide) hq1 hq2
  · intro q hq1 hq2
    rw [List.mem_append, List.mem_append] at hq1
    rcases hq1 with (hq1 | hq1) | hq1
    · exact disjoint_map_dir p (show Direction.right ≠ .up by decide) hq1 hq2
    · exact disjoint_map_dir p (show Direction.left ≠ .up by decide) hq1 hq2
    · exact disjoint_map_dir p (show Direction.down ≠ .up by decide) hq1 hq2

end GridPegSolitairePuzzle

namespace GridPegSolitairePuzzle

theorem countVal_jumpBoard {m : List (List String)} {d : Direction} {rc : Nat × Nat}
    (h : rc ∈ get_jump_indexes m d) :
    countVal "*" (jumpBoard m d rc) + 1 = countVal "*" m := by
  obtain ⟨f, -⟩ := jumpOK_of_mem h
  obtain ⟨ho1, ho2, hm1, hm2, hl1, hl2, hvo, hvm, hvl, hom, hol, hml⟩ := f
  set o := (jumpCells d rc).1 with ho
  set mid := (jumpCells d rc).2.1 with hmid
  set land := (jumpCells d rc).2.2 with hland
  have e1 := countVal_setCell "*" "." m ho1 ho2
  rw [if_pos hvo, if_neg (by decide)] at e1
  set b1 := setCell m o.1 o.2 "." with hb1
  have hm1b : mid.1 < b1.length := by rw [hb1, length_setCell]; exact hm1
  have hm2b : mid.2 < (b1.getD mid.1 []).length := by rw [hb1, rowlen_setCell]; exact hm2
  have hvm1 : getCell b1 mid.1 mid.2 = "*" := by
    rw [hb1, getCell_setCell_ne _ _ (pair_ne (Ne.symm hom))]
    exact hvm
  have e2 := countVal_setCell "*" "." b1 hm1b hm2b
  rw [if_pos hvm1, if_neg (by decide)] at e2
  set b2 := setCell b1 mid.1 mid.2 "." with hb2
  have hl1b : land.1 < b2.length := by rw [hb2, length_setCell, hb1, length_setCell]; exact hl1
  have hl2b : land.2 < (b2.getD land.1 []).length := by
    rw [hb2, rowlen_setCell, hb1, rowlen_setCell]; exact hl2
  have hvl1 : getCell b2 land.1 land.2 = "." := by
    rw [hb2, getCell_setCell_ne _ _ (pair_ne (Ne.symm hml)), hb1,
      getCell_setCell_ne _ _ (pair_ne (Ne.symm hol))]
    exact hvl
  have e3 := countVal_setCell "*" "*" b2 hl1b hl2b
  rw [if_neg (by rw [hvl1]; decide), if_pos rfl] at e3
  have hj : jumpBoard m d rc = setCell b2 land.1 land.2 "*" := rfl
  rw [hj]
  omega

theorem self_not_mem_extensions (p : GridPegSolitairePuzzle) : p ∉ p.extensions := by
  intro h
  obtain ⟨d, rc, hrc, he⟩ := mem_extensions.mp h
  have hc := countVal_jumpBoard hrc
  have : p.marker = jumpBoard p.marker d rc := congrArg marker he
  rw [← this] at hc
  omega


theorem gpStep_pegCount {p q : GridPegSolitairePuzzle} (h : gpStep p q) :
    countVal "*" q.marker + 1 = countVal "*" p.marker := by
  obtain ⟨d, rc, hrc, rfl⟩ := mem_extensions.mp h
  exact countVal_jumpBoard hrc

theorem transGen_pegCount {p q : GridPegSolitairePuzzle}
    (h : Relation.TransGen gpStep p q) :
    countVal "*" q.marker < countVal "*" p.marker := by
  induction h with
  | single h1 => have := gpStep_pegCount h1; omega
  | tail _ h1 ih => have := gpStep_pegCount h1; omega

theorem marker_dims_extensions {p q : GridPegSolitairePuzzle} (h : q ∈ p.extensions) :
    q.marker.length = p.marker.length ∧
      (∀ i, (q.marker.getD i []).length = (p.marker.getD i []).length) ∧
      q.marker_set = p.marker_set := by
  obtain ⟨d, rc, hrc, rfl⟩ := mem_extensions.mp h
  refine ⟨?_, ?_, rfl⟩
  · show (place_jump _ _ _ _).length = _
    rw [place_jump, length_setCell, length_setCell, length_setCell]
  · intro i
    show ((place_jump _ _ _ _).getD i []).length = _
    rw [place_jump, rowlen_setCell, rowlen_setCell, rowlen_setCell]

end GridPegSolitairePuzzle

namespace MNPuzzle


theorem inner_foldl_eq (a : Nat) (line : List String) :
    ∀ (k : Nat) (acc : Option (Nat × Nat)),
      (line.enumFrom k).foldl (fun acc2 iv =>
          if iv.2 == "*" then some (a, iv.1) else acc2) acc
        = match lastStarFrom k line with
          | some i => some (a, i)
          | none => acc := by
  induction line with
  | nil => intro k acc; rfl
  | cons v rest ih =>
    intro k acc
    rw [List.enumFrom_cons, List.foldl_cons, ih (k + 1)]
    show (match lastStarFrom (k + 1) rest with
      | some i => some (a, i)
      | none => if v == "*" then some (a, k) else acc) = _
    cases h : lastStarFrom (k + 1) rest with
    | some i => simp [lastStarFrom, h]
    | none =>
      by_cases hv : (v == "*") = true
      · simp [lastStarFrom, h, hv]
      · simp only [Bool.not_eq_true] at hv
        simp [lastStarFrom, h, hv]

theorem outer_foldl_eq (grid : List (List String)) :
    ∀ (k : Nat) (acc : Option (Nat × Nat)),
      (grid.enumFrom k).foldl (fun acc al =>
          al.2.enum.foldl (fun acc2 iv =>
            if iv.2 == "*" then some (al.1, iv.1) else acc2) acc) acc
        = match lastStarPosFrom k grid with
          | some q => some q
          | none => acc := by
  induction grid with
  | nil => intro k acc; rfl
  | cons line rest ih =>
    intro k acc
    rw [List.enumFrom_cons, List.foldl_cons]
    show (rest.enumFrom (k + 1)).foldl (fun acc al =>
        al.2.enum.foldl (fun acc2 iv =>
          if iv.2 == "*" then some (al.1, iv.1) else acc2) acc)
        (line.enum.foldl (fun acc2 iv =>
          if iv.2 == "*" then some (k, iv.1) else acc2) acc)
      = match lastStarPosFrom k (line :: rest) with
        | some q => some q
        | none => acc
    have hinner : line.enum.foldl (fun acc2 iv =>
        if iv.2 == "*" then some (k, iv.1) else acc2) acc
        = match lastStarFrom 0 line with
          | some i => some (k, i)
          | none => acc := inner_foldl_eq k line 0 acc
    rw [ih (k + 1), hinner]
    cases h : lastStarPosFrom (k + 1) rest with
    | some q => simp [lastStarPosFrom, h]
    | none =>
      cases h2 : lastStarFrom 0 line with
      | some i => simp [lastStarPosFrom, h, h2]
      | none => simp [lastStarPosFrom, h, h2]

theorem find_empty_index_eq (grid : List (List String)) :
    find_empty_index grid = match lastStarPosFrom 0 grid with
      | some q => some q
      | none => none :=
  outer_foldl_eq grid 0 none

theorem lastStarFrom_none {line : List String} :
    ∀ {k : Nat}, lastStarFrom k line = none →
      ∀ j, j < line.length → line.getD j "" ≠ "*" := by
  induction line with
  | nil => intro k h j hj; simp at hj
  | cons v rest ih =>
    intro k h j hj
    unfold lastStarFrom at h
    cases h2 : lastStarFrom (k + 1) rest with
    | some q =>
      simp only [h2] at h
      exact absurd h (by simp)
    | none =>
      simp only [h2] at h
      by_cases hv : (v == "*") = true
      · rw [if_pos hv] at h
        exact absurd h (by simp)
      · cases j with
        | zero =>
          rw [List.getD_cons_zero]
          simpa using hv
        | succ j2 =>
          rw [List.getD_cons_succ]
          exact ih h2 j2 (by simpa using hj)

theorem lastStarFrom_some {line : List String} :
    ∀ {k i : Nat}, lastStarFrom k line = some i →
      k ≤ i ∧ i - k < line.length ∧ line.getD (i - k) "" = "*" ∧
        (∀ j, j < line.length → line.getD j "" = "*" → k + j ≤ i) := by
  induction line with
  | nil => intro k i h; simp [lastStarFrom] at h
  | cons v rest ih =>
    intro k i h
    unfold lastStarFrom at h
    cases h2 : lastStarFrom (k + 1) rest with
    | some j =>
      simp only [h2] at h
      obtain rfl : i = j := by simpa using h.symm
      obtain ⟨hk, hlen, hval, hmax⟩ := ih h2
      refine ⟨by omega, by simp only [List.length_cons]; omega, ?_, ?_⟩
      · have hik : i - k = (i - (k + 1)) + 1 := by omega
        rw [hik, List.getD_cons_succ]
        exact hval
      · intro j hj hv
        cases j with
        | zero => omega
        | succ j2 =>
          rw [List.getD_cons_succ] at hv
          have := hmax j2 (by simpa using hj) hv
          omega
    | none =>
      simp only [h2] at h
      by_cases hv : (v == "*") = true
      · rw [if_pos hv] at h
        obtain rfl : k = i := by simpa using h
        rw [beq_iff_eq] at hv
        refine ⟨Nat.le_refl k, by simp, by simpa using hv, ?_⟩
        intro j hj hval
        cases j with
        | zero => omega
        | succ j2 =>
          rw [List.getD_cons_succ] at hval
          exact absurd hval (lastStarFrom_none h2 j2 (by simpa using hj))
      · rw [if_neg hv] at h
        simp at h

end MNPuzzle

theorem getCell_cons_succ (line : List String) (rest : List (List String)) (r c : Nat) :
    getCell (line :: rest) (r + 1) c = getCell rest r c := by
  unfold getCell
  rw [List.getD_cons_succ]

theorem getCell_cons_zero (line : List String) (rest : List (List String)) (c : Nat) :
    getCell (line :: rest) 0 c = line.getD c "" := by
  unfold getCell
  rw [List.getD_cons_zero]

namespace MNPuzzle

theorem lastStarPosFrom_none {rows : List (List String)} :
    ∀ {k : Nat}, lastStarPosFrom k rows = none →
      ∀ r c, getCell rows r c ≠ "*" := by
  induction rows with
  | nil =>
    intro k h r c
    intro hcon
    exact absurd ((getCell_in_range (by rw [hcon]; decide)).1) (by simp)
  | cons line rest ih =>
    intro k h r c
    unfold lastStarPosFrom at h
    cases h2 : lastStarPosFrom (k + 1) rest with
    | some q =>
      simp only [h2] at h
      exact absurd h (by simp)
    | none =>
      simp only [h2] at h
      cases h3 : lastStarFrom 0 line with
      | some i =>
        simp only [h3] at h
        exact absurd h (by simp)
      | none =>
        cases r with
        | zero =>
          rw [getCell_cons_zero]
          by_cases hc : c < line.length
          · exact lastStarFrom_none h3 c hc
          · rw [List.getD_eq_default _ _ (by omega)]
            decide
        | succ r2 =>
          rw [getCell_cons_succ]
          exact ih h2 r2 c

theorem lastStarPosFrom_some {rows : List (List String)} :
    ∀ {k : Nat} {rc : Nat × Nat}, lastStarPosFrom k rows = some rc →
      k ≤ rc.1 ∧ rc.1 - k < rows.length ∧
        getCell rows (rc.1 - k) rc.2 = "*" ∧
        (∀ r c, r < rows.length → getCell rows r c = "*" →
          (k + r < rc.1 ∨ (k + r = rc.1 ∧ c ≤ rc.2))) := by
  induction rows with
  | nil => intro k rc h; simp [lastStarPosFrom] at h
  | cons line rest ih =>
    intro k rc h
    unfold lastStarPosFrom at h
    cases h2 : lastStarPosFrom (k + 1) rest with
    | some q =>
      simp only [h2] at h
      obtain rfl : rc = q := by simpa using h.symm
      obtain ⟨hk, hlen, hval, hmax⟩ := ih h2
      refine ⟨by omega, by simp only [List.length_cons]; omega, ?_, ?_⟩
      · have hik : rc.1 - k = (rc.1 - (k + 1)) + 1 := by omega
        rw [hik, getCell_cons_succ]
        exact hval
      · intro r c hr hv
        cases r with
        | zero => omega
        | succ r2 =>
          rw [getCell_cons_succ] at hv
          have := hmax r2 c (by simpa using hr) hv
          omega
    | none =>
      simp only [h2] at h
      cases h3 : lastStarFrom 0 line with
      | some i =>
        simp only [h3] at h
        obtain rfl : rc = (k, i) := by simpa using h.symm
        obtain ⟨-, hlen, hval, hmax⟩ := lastStarFrom_some h3
        rw [Nat.sub_zero] at hlen hval
        refine ⟨Nat.le_refl k, by simp, ?_, ?_⟩
        · rw [show (k, i).1 - k = 0 from by omega, getCell_cons_zero]
          exact hval
        · intro r c hr hv
          cases r with
          | zero =>
            rw [getCell_cons_zero] at hv
            right
            refine ⟨by omega, ?_⟩
            by_cases hc : c < line.length
            · have := hmax c hc hv
              omega
            · rw [List.getD_eq_default _ _ (by omega)] at hv
              exact absurd hv (by decide)
          | succ r2 =>
            rw [getCell_cons_succ] at hv
            exact absurd hv (lastStarPosFrom_none h2 r2 c)
      | none =>
        simp only [h3] at h
        exact absurd h (by simp)

theorem find_empty_index_none {grid : List (List String)}
    (h : find_empty_index grid = none) : ∀ r c, getCell grid r c ≠ "*" := by
  rw [find_empty_index_eq] at h
  cases h2 : lastStarPosFrom 0 grid with
  | some q => rw [h2] at h; exact absurd h (by simp)
  | none => exact fun r c => lastStarPosFrom_none h2 r c

theorem find_empty_index_some {grid : List (List String)} {rc : Nat × Nat}
    (h : find_empty_index grid = some rc) :
    rc.1 < grid.length ∧ getCell grid rc.1 rc.2 = "*" ∧
      (∀ r c, getCell grid r c = "*" → (r < rc.1 ∨ (r = rc.1 ∧ c ≤ rc.2))) := by
  rw [find_empty_index_eq] at h
  cases h2 : lastStarPosFrom 0 grid with
  | none => rw [h2] at h; exact absurd h (by simp)
  | some q =>
    rw [h2] at h
    obtain rfl : rc = q := by simpa using h.symm
    obtain ⟨-, hlen, hval, hmax⟩ := lastStarPosFrom_some h2
    rw [Nat.sub_zero] at hlen hval
    refine ⟨hlen, hval, ?_⟩
    intro r c hv
    by_cases hr : r < grid.length
    · have := hmax r c hr hv
      omega
    · exact absurd (getCell_in_range (by rw [hv]; decide)).1 hr

end MNPuzzle


/-! ### Uniqueness of a cell value from `countVal` -/

theorem count_row_two {l : List String} {a : String} :
    ∀ {i j : Nat}, i ≠ j → i < l.length → j < l.length →
      l.getD i "" = a → l.getD j "" = a → 2 ≤ l.count a := by
  induction l with
  | nil => intro i j _ hi _ _ _; simp at hi
  | cons v rest ih =>
    intro i j hij hi hj hvi hvj
    rw [List.count_cons]
    cases i with
    | zero =>
      cases j with
      | zero => omega
      | succ j2 =>
        rw [List.getD_cons_zero] at hvi
        rw [List.getD_cons_succ] at hvj
        have h1 : 1 ≤ rest.count a := count_getD_pos (by simpa using hj) hvj
        rw [if_pos (by rw [beq_iff_eq]; exact hvi)]
        omega
    | succ i2 =>
      cases j with
      | zero =>
        rw [List.getD_cons_zero] at hvj
        rw [List.getD_cons_succ] at hvi
        have h1 : 1 ≤ rest.count a := count_getD_pos (by simpa using hi) hvi
        rw [if_pos (by rw [beq_iff_eq]; exact hvj)]
        omega
      | succ j2 =>
        rw [List.getD_cons_succ] at hvi hvj
        have := ih (by omega : i2 ≠ j2) (by simpa using hi) (by simpa using hj) hvi hvj
        omega

theorem countVal_row_le {a : String} {g : List (List String)} :
    ∀ {r : Nat}, r < g.length → (g.getD r []).count a ≤ countVal a g := by
  induction g with
  | nil => intro r hr; simp at hr
  | cons row rest ih =>
    intro r hr
    rw [countVal, List.map_cons, List.sum_cons]
    cases r with
    | zero =>
      rw [List.getD_cons_zero]
      omega
    | succ r2 =>
      rw [List.getD_cons_succ]
      have := ih (by simpa using hr)
      rw [countVal] at this
      omega

theorem count_two_rows {a : String} {g : List (List String)} :
    ∀ {r1 r2 : Nat}, r1 < r2 → r2 < g.length →
      1 ≤ (g.getD r1 []).count a → 1 ≤ (g.getD r2 []).count a → 2 ≤ countVal a g := by
  induction g with
  | nil => intro r1 r2 _ hr2 _ _; simp at hr2
  | cons row rest ih =>
    intro r1 r2 h12 hr2 h1 h2
    rw [countVal, List.map_cons, List.sum_cons]
    cases r1 with
    | zero =>
      rw [List.getD_cons_zero] at h1
      obtain ⟨r2p, rfl⟩ : ∃ r2p, r2 = r2p + 1 := ⟨r2 - 1, by omega⟩
      rw [List.getD_cons_succ] at h2
      have := @countVal_row_le a rest r2p (by simpa using hr2)
      rw [countVal] at this
      omega
    | succ r1p =>
      obtain ⟨r2p, rfl⟩ : ∃ r2p, r2 = r2p + 1 := ⟨r2 - 1, by omega⟩
      rw [List.getD_cons_succ] at h1 h2
      have := ih (by omega : r1p < r2p) (by simpa using hr2) h1 h2
      rw [countVal] at this
      omega

theorem star_unique {g : List (List String)} (h1 : countVal "*" g = 1)
    {r c r' c' : Nat} (ha : getCell g r c = "*") (hb : getCell g r' c' = "*") :
    r = r' ∧ c = c' := by
  obtain ⟨hr, hc⟩ := @getCell_in_range g r c (by rw [ha]; decide)
  obtain ⟨hr', hc'⟩ := @getCell_in_range g r' c' (by rw [hb]; decide)
  rcases eq_or_ne r r' with he | he
  · subst he
    refine ⟨rfl, ?_⟩
    by_contra hcc
    have h2 := count_row_two hcc hc hc' ha hb
    have hle := @countVal_row_le "*" g r hr
    omega
  · exfalso
    rcases Nat.lt_or_ge r r' with hlt | hge
    · have := count_two_rows hlt hr' (count_getD_pos hc ha) (count_getD_pos hc' hb)
      omega
    · have hlt : r' < r := by omega
      have := count_two_rows hlt hr (count_getD_pos hc' hb) (count_getD_pos hc ha)
      omega

theorem exists_star_of_countVal_pos {a : String} {g : List (List String)}
    (h : 0 < countVal a g) :
    ∃ r c, r < g.length ∧ c < (g.getD r []).length ∧ getCell g r c = a := by
  induction g with
  | nil => simp [countVal] at h
  | cons row rest ih =>
    rw [countVal, List.map_cons, List.sum_cons] at h
    by_cases hrow : 0 < row.count a
    · have hm : a ∈ row := List.count_pos_iff.mp hrow
      obtain ⟨c, hc, hv⟩ := List.mem_iff_getElem.mp hm
      refine ⟨0, c, by simp, by simpa using hc, ?_⟩
      rw [getCell_cons_zero, List.getD_eq_getElem?_getD, List.getElem?_eq_getElem hc]
      exact hv
    · have hrest : 0 < countVal a rest := by
        rw [countVal]
        omega
      obtain ⟨r, c, hh1, hh2, hh3⟩ := ih hrest
      exact ⟨r + 1, c, by simpa using hh1, by simpa [List.getD_cons_succ] using hh2,
        by rwa [getCell_cons_succ]⟩


theorem mem_ite_singleton {α : Type} {P : Prop} [Decidable P] {x a : α} :
    x ∈ (if P then [a] else []) ↔ P ∧ x = a := by
  by_cases h : P <;> simp [h]

namespace MNPuzzle

theorem find_empty_index_isSome {grid : List (List String)}
    (h : 0 < countVal "*" grid) : ∃ rc, find_empty_index grid = some rc := by
  cases hf : find_empty_index grid with
  | some rc => exact ⟨rc, rfl⟩
  | none =>
    obtain ⟨r, c, -, -, hv⟩ := exists_star_of_countVal_pos h
    exact absurd hv (find_empty_index_none hf r c)

theorem valid_rowlen {f t : List (List String)} (h : valid f t = true)
    {r : Nat} (hr : r < f.length) :
    (f.getD r []).length = (f.headD []).length := by
  unfold valid at h
  rw [Bool.and_eq_true, Bool.and_eq_true] at h
  have hall := h.1.2
  rw [List.all_eq_true] at hall
  have hget : f.getD r [] = f[r] := by
    rw [List.getD_eq_getElem?_getD, List.getElem?_eq_getElem hr]
    rfl
  have hlen := hall f[r] (List.getElem_mem hr)
  rw [beq_iff_eq] at hlen
  rw [hget]
  exact hlen

theorem mem_moves_at {p : MNPuzzle} {r c : Nat} {q : MNPuzzle}
    (hv : valid p.from_grid p.to_grid = true)
    (hr : r < p.from_grid.length) (hc : c < (p.from_grid.headD []).length) :
    q ∈ p.moves_at r c ↔ ∃ r' c', orthAdjacent r c r' c' ∧
      r' < p.from_grid.length ∧ c' < (p.from_grid.headD []).length ∧
      q = MNPuzzle.mk (swapCells p.from_grid r c r' c') p.to_grid := by
  unfold moves_at
  rw [List.mem_map]
  constructor
  · rintro ⟨g, hg, rfl⟩
    rw [List.mem_append, List.mem_append, List.mem_append] at hg
    rcases hg with ((h1 | h2) | h3) | h4
    · rw [mem_ite_singleton] at h1
      obtain ⟨hcond, rfl⟩ := h1
      exact ⟨r, c + 1, Or.inl ⟨rfl, rfl⟩, hr, by rwa [valid_rowlen hv hr] at hcond, rfl⟩
    · rw [mem_ite_singleton] at h2
      obtain ⟨hcond, rfl⟩ := h2
      exact ⟨r, c - 1, Or.inr (Or.inl ⟨rfl, by omega⟩), hr, by omega, rfl⟩
    · rw [mem_ite_singleton] at h3
      obtain ⟨hcond, rfl⟩ := h3
      exact ⟨r - 1, c, Or.inr (Or.inr (Or.inl ⟨by omega, rfl⟩)), by omega, hc, rfl⟩
    · rw [mem_ite_singleton] at h4
      obtain ⟨hcond, rfl⟩ := h4
      exact ⟨r + 1, c, Or.inr (Or.inr (Or.inr ⟨rfl, rfl⟩)), hcond, hc, rfl⟩
  · rintro ⟨r', c', hadj, hr', hc', rfl⟩
    refine ⟨swapCells p.from_grid r c r' c', ?_, rfl⟩
    rw [List.mem_append, List.mem_append, List.mem_append]
    rcases hadj with ⟨rfl, rfl⟩ | ⟨rfl, hce⟩ | ⟨hre, rfl⟩ | ⟨rfl, rfl⟩
    · refine Or.inl (Or.inl (Or.inl ?_))
      rw [mem_ite_singleton]
      exact ⟨by rwa [valid_rowlen hv hr], rfl⟩
    · refine Or.inl (Or.inl (Or.inr ?_))
      rw [mem_ite_singleton]
      refine ⟨by omega, ?_⟩
      rw [show c - 1 = c' from by omega]
    · refine Or.inl (Or.inr ?_)
      rw [mem_ite_singleton]
      refine ⟨by omega, ?_⟩
      rw [show r - 1 = r' from by omega]
    · exact Or.inr (by rw [mem_ite_singleton]; exact ⟨hr', rfl⟩)

theorem moves_at_length (p : MNPuzzle) (r c : Nat) :
    (p.moves_at r c).length =
      (if c + 1 < (p.from_grid.getD r []).length then 1 else 0) +
      (if 1 ≤ c then 1 else 0) + (if 1 ≤ r then 1 else 0) +
      (if r + 1 < p.from_grid.length then 1 else 0) := by
  unfold moves_at
  rw [List.length_map]
  split_ifs <;> simp

theorem getCell_swapCells {g : List (List String)} {r c r' c' : Nat}
    (hr : r < g.length) (hc : c < (g.getD r []).length)
    (hr' : r' < g.length) (hc' : c' < (g.getD r' []).length) (x : Nat × Nat) :
    getCell (swapCells g r c r' c') x.1 x.2 =
      if x = (r', c') then getCell g r c
      else if x = (r, c) then getCell g r' c'
      else getCell g x.1 x.2 := by
  unfold swapCells
  by_cases hx1 : x = (r', c')
  · subst hx1
    rw [if_pos rfl]
    apply getCell_setCell_self
    · rw [length_setCell]; exact hr'
    · rw [rowlen_setCell]; exact hc'
  · rw [if_neg hx1, getCell_setCell_ne _ _ (GridPegSolitairePuzzle.pair_ne hx1)]
    by_cases hx2 : x = (r, c)
    · subst hx2
      rw [if_pos rfl]
      exact getCell_setCell_self g _ hr hc
    · rw [if_neg hx2, getCell_setCell_ne _ _ (GridPegSolitairePuzzle.pair_ne hx2)]

end MNPuzzle

namespace MNPuzzle

theorem extensions_eq_some {p : MNPuzzle} {rc : Nat × Nat}
    (h : find_empty_index p.from_grid = some rc) :
    p.extensions = some (p.moves_at rc.1 rc.2) := by
  unfold extensions
  rw [h]

theorem center_ne_neighbor {r c r' c' : Nat} (hadj : orthAdjacent r c r' c') :
    (r, c) ≠ (r', c') := by
  rcases hadj with ⟨rfl, rfl⟩ | ⟨rfl, h⟩ | ⟨h, rfl⟩ | ⟨rfl, rfl⟩ <;>
    simp [Prod.ext_iff] <;> omega

theorem swap_grid_ne {p : MNPuzzle} {r c r1 c1 r2 c2 : Nat}
    (hv : valid p.from_grid p.to_grid = true)
    (h1 : countVal "*" p.from_grid = 1)
    (hr : r < p.from_grid.length) (hc : c < (p.from_grid.getD r []).length)
    (hstar : getCell p.from_grid r c = "*")
    (ha1 : orthAdjacent r c r1 c1) (hb1 : r1 < p.from_grid.length)
    (hb1c : c1 < (p.from_grid.headD []).length)
    (_ha2 : orthAdjacent r c r2 c2) (hb2 : r2 < p.from_grid.length)
    (hb2c : c2 < (p.from_grid.headD []).length)
    (hne : (r1, c1) ≠ (r2, c2)) :
    swapCells p.from_grid r c r1 c1 ≠ swapCells p.from_grid r c r2 c2 := by
  intro heq
  have hc1row : c1 < (p.from_grid.getD r1 []).length := by
    rw [valid_rowlen hv hb1]; exact hb1c
  have hc2row : c2 < (p.from_grid.getD r2 []).length := by
    rw [valid_rowlen hv hb2]; exact hb2c
  have e1 := getCell_swapCells hr hc hb1 hc1row (r1, c1)
  rw [if_pos rfl, hstar] at e1
  have e2 := getCell_swapCells hr hc hb2 hc2row (r1, c1)
  rw [if_neg hne, if_neg (Ne.symm (center_ne_neighbor ha1))] at e2
  rw [heq, e2] at e1
  have hrc := star_unique h1 e1 hstar
  exact center_ne_neighbor ha1 (Prod.ext_iff.mpr ⟨hrc.1.symm, hrc.2.symm⟩)

theorem nodup_moves_at {p : MNPuzzle} {r c : Nat}
    (hv : valid p.from_grid p.to_grid = true)
    (h1 : countVal "*" p.from_grid = 1)
    (hr : r < p.from_grid.length) (hc : c < (p.from_grid.headD []).length)
    (hstar : getCell p.from_grid r c = "*") :
    (p.moves_at r c).Nodup := by
  have hcrow : c < (p.from_grid.getD r []).length := by
    rw [valid_rowlen hv hr]; exact hc
  have key : ∀ r1 c1 r2 c2, orthAdjacent r c r1 c1 → r1 < p.from_grid.length →
      c1 < (p.from_grid.headD []).length → orthAdjacent r c r2 c2 →
      r2 < p.from_grid.length → c2 < (p.from_grid.headD []).length →
      (r1, c1) ≠ (r2, c2) →
      swapCells p.from_grid r c r1 c1 ≠ swapCells p.from_grid r c r2 c2 :=
    fun r1 c1 r2 c2 a1 b1 b1c a2 b2 b2c hne =>
      swap_grid_ne hv h1 hr hcrow hstar a1 b1 b1c a2 b2 b2c hne
  unfold moves_at
  refine List.Nodup.map_on ?_ ?_
  · intro x _ y _ hxy
    exact ((MNPuzzle.mk.injEq _ _ _ _).mp hxy).1
  · rw [List.nodup_append, List.nodup_append, List.nodup_append]
    have hsing : ∀ (P : Prop) (hP : Decidable P) (g : List (List String)),
        (if P then [g] else []).Nodup := by
      intro P hP g
      split_ifs <;> simp
    refine ⟨⟨⟨hsing _ _ _, hsing _ _ _, ?_⟩, hsing _ _ _, ?_⟩, hsing _ _ _, ?_⟩
    · intro x hx hy
      rw [mem_ite_singleton] at hx hy
      obtain ⟨hP1, rfl⟩ := hx
      obtain ⟨hP2, he⟩ := hy
      refine key r (c + 1) r (c - 1) (Or.inl ⟨rfl, rfl⟩) hr
        (by rwa [valid_rowlen hv hr] at hP1)
        (Or.inr (Or.inl ⟨rfl, by omega⟩)) hr (by omega)
        (by simp only [ne_eq, Prod.mk.injEq, not_and]; omega) he
    · intro x hx hy
      rw [List.mem_append] at hx
      rw [mem_ite_singleton] at hy
      obtain ⟨hP3, he⟩ := hy
      rcases hx with hx | hx <;> rw [mem_ite_singleton] at hx
      · obtain ⟨hP1, rfl⟩ := hx
        refine key r (c + 1) (r - 1) c (Or.inl ⟨rfl, rfl⟩) hr
          (by rwa [valid_rowlen hv hr] at hP1)
          (Or.inr (Or.inr (Or.inl ⟨by omega, rfl⟩))) (by omega) hc
          (by simp only [ne_eq, Prod.mk.injEq, not_and]; omega) he
      · obtain ⟨hP2, rfl⟩ := hx
        refine key r (c - 1) (r - 1) c (Or.inr (Or.inl ⟨rfl, by omega⟩)) hr (by omega)
          (Or.inr (Or.inr (Or.inl ⟨by omega, rfl⟩))) (by omega) hc
          (by simp only [ne_eq, Prod.mk.injEq, not_and]; omega) he
    · intro x hx hy
      rw [List.mem_append, List.mem_append] at hx
      rw [mem_ite_singleton] at hy
      obtain ⟨hP4, he⟩ := hy
      rcases hx with (hx | hx) | hx <;> rw [mem_ite_singleton] at hx
      · obtain ⟨hP1, rfl⟩ := hx
        refine key r (c + 1) (r + 1) c (Or.inl ⟨rfl, rfl⟩) hr
          (by rwa [valid_rowlen hv hr] at hP1)
          (Or.inr (Or.inr (Or.inr ⟨rfl, rfl⟩))) hP4 hc
          (by simp only [ne_eq, Prod.mk.injEq, not_and]; omega) he
      · obtain ⟨hP2, rfl⟩ := hx
        refine key r (c - 1) (r + 1) c (Or.inr (Or.inl ⟨rfl, by omega⟩)) hr (by omega)
          (Or.inr (Or.inr (Or.inr ⟨rfl, rfl⟩))) hP4 hc
          (by simp only [ne_eq, Prod.mk.injEq, not_and]; omega) he
      · obtain ⟨hP3, rfl⟩ := hx
        refine key (r - 1) c (r + 1) c (Or.inr (Or.inr (Or.inl ⟨by omega, rfl⟩)))
          (by omega) hc
          (Or.inr (Or.inr (Or.inr ⟨rfl, rfl⟩))) hP4 hc
          (by simp only [ne_eq, Prod.mk.injEq, not_and]; omega) he

theorem self_not_mem_moves_at {p : MNPuzzle} {r c : Nat}
    (hv : valid p.from_grid p.to_grid = true)
    (h1 : countVal "*" p.from_grid = 1)
    (hr : r < p.from_grid.length) (hc : c < (p.from_grid.headD []).length)
    (hstar : getCell p.from_grid r c = "*") :
    p ∉ p.moves_at r c := by
  intro hmem
  rw [mem_moves_at hv hr hc] at hmem
  obtain ⟨r', c', hadj, hr', hc', heq⟩ := hmem
  have hfg : p.from_grid = swapCells p.from_grid r c r' c' := congrArg from_grid heq
  have hcrow : c < (p.from_grid.getD r []).length := by
    rw [valid_rowlen hv hr]; exact hc
  have hc'row : c' < (p.from_grid.getD r' []).length := by
    rw [valid_rowlen hv hr']; exact hc'
  have e : getCell (swapCells p.from_grid r c r' c') r c =
      if ((r, c) : Nat × Nat) = (r', c') then getCell p.from_grid r c
      else if ((r, c) : Nat × Nat) = (r, c) then getCell p.from_grid r' c'
      else getCell p.from_grid r c :=
    getCell_swapCells hr hcrow hr' hc'row (r, c)
  rw [if_neg (center_ne_neighbor hadj), if_pos rfl, ← hfg, hstar] at e
  have hrc := star_unique h1 e.symm hstar
  exact center_ne_neighbor hadj (Prod.ext_iff.mpr ⟨hrc.1.symm, hrc.2.symm⟩)

end MNPuzzle

namespace WordLadderPuzzle

theorem wl_mem_extensions {p q : WordLadderPuzzle} :
    q ∈ p.extensions ↔ q.to_word = p.to_word ∧ q.word_set = p.word_set ∧
      q.from_word ∈ p.word_set ∧ q.from_word ≠ p.from_word ∧
      ∃ i ch, i < p.from_word.toList.length ∧ ch ∈ chars ∧
        q.from_word = String.mk (p.from_word.toList.set i ch) := by
  unfold extensions
  rw [List.mem_map]
  constructor
  · rintro ⟨w, hw, rfl⟩
    rw [List.mem_filter] at hw
    obtain ⟨hw1, hw2⟩ := hw
    rw [List.mem_filter] at hw1
    obtain ⟨hw0, hw3⟩ := hw1
    rw [List.mem_dedup, List.mem_map] at hw0
    obtain ⟨l, hl, rfl⟩ := hw0
    unfold word_configurations at hl
    rw [List.mem_flatten] at hl
    obtain ⟨inner, hinner, hlmem⟩ := hl
    rw [List.mem_map] at hinner
    obtain ⟨i, hi, rfl⟩ := hinner
    rw [List.mem_range] at hi
    rw [List.mem_map] at hlmem
    obtain ⟨ch, hch, rfl⟩ := hlmem
    exact ⟨rfl, rfl, by simpa using hw3, by simpa using hw2, i, ch, hi, hch, rfl⟩
  · rintro ⟨ht, hs, hmem, hne, i, ch, hi, hch, hw⟩
    obtain ⟨qf, qt, qs⟩ := q
    simp only at ht hs hmem hne hw
    subst ht
    subst hs
    refine ⟨qf, ?_, rfl⟩
    rw [List.mem_filter]
    refine ⟨?_, by simpa using hne⟩
    rw [List.mem_filter]
    refine ⟨?_, by simpa using hmem⟩
    rw [List.mem_dedup, List.mem_map]
    refine ⟨p.from_word.toList.set i ch, ?_, hw.symm⟩
    unfold word_configurations
    rw [List.mem_flatten]
    refine ⟨chars.map (fun letter => p.from_word.toList.set i letter), ?_, ?_⟩
    · rw [List.mem_map]
      exact ⟨i, List.mem_range.mpr hi, rfl⟩
    · rw [List.mem_map]
      exact ⟨ch, hch, rfl⟩

theorem wl_nodup_extensions (p : WordLadderPuzzle) : p.extensions.Nodup := by
  unfold extensions
  refine List.Nodup.map_on ?_ ?_
  · intro x _ y _ h
    exact ((WordLadderPuzzle.mk.injEq _ _ _ _ _ _).mp h).1
  · exact List.Nodup.filter _ (List.Nodup.filter _ (List.nodup_dedup _))

theorem wl_self_not_mem_extensions (p : WordLadderPuzzle) : p ∉ p.extensions := by
  intro h
  rw [wl_mem_extensions] at h
  exact h.2.2.2.1 rfl

end WordLadderPuzzle


/-- C1: on the well-formed 1×3 board `[[".", "*", "*"]]` the claim's jump rule
produces the left jump of the peg at column 2 over the peg at column 1 into
the empty cell at column 0 (board `[["*", ".", "."]]`), but the source's
`extensions()` returns no successor at all: `get_jump_indexes` requires
`col - 2 > 0`, so a left jump landing in column 0 (and an up jump landing in
row 0) is never generated. -/
theorem C1_left_jump_landing_in_column_zero_missed :
    GridPegSolitairePuzzle.valid [[".", "*", "*"]] ["*", "."] = true ∧
    GridPegSolitairePuzzle.extensions
      (GridPegSolitairePuzzle.mk [[".", "*", "*"]] ["*", "."]) = [] ∧
    GridPegSolitairePuzzle.claimJumpBoards [[".", "*", "*"]] = [[["*", ".", "."]]] := by
  decide

/-- C4 counterexample: on the 5×5 board whose single CENTRAL cell (2,2) is
empty, `extensions()` yields 4 successor boards (one jump into the centre from
each direction), not 3; the repository's doctest board, which does yield 3,
has its empty cell at row 3, column 2 instead. -/
theorem C4_central_empty_four_extensions :
    GridPegSolitairePuzzle.valid grid5central ["*", ".", "#"] = true ∧
    (GridPegSolitairePuzzle.extensions
      (GridPegSolitairePuzzle.mk grid5central ["*", ".", "#"])).length = 4 := by
  decide

/-- C4 (amended): on the 5×5 board with the single empty cell at row 3 of the
centre column (the doctest board), `extensions()` yields exactly 3 successor
boards, while the board whose single central cell is empty yields 4; neither
board is solved, and for every board `is_solved()` is true exactly when one
peg remains (hence false whenever more than one peg remains). -/
theorem C4_five_by_five_and_is_solved :
    (GridPegSolitairePuzzle.extensions
      (GridPegSolitairePuzzle.mk grid5 ["*", ".", "#"])).length = 3 ∧
    (GridPegSolitairePuzzle.extensions
      (GridPegSolitairePuzzle.mk grid5central ["*", ".", "#"])).length = 4 ∧
    GridPegSolitairePuzzle.is_solved
      (GridPegSolitairePuzzle.mk grid5 ["*", ".", "#"]) = false ∧
    (∀ p : GridPegSolitairePuzzle,
      p.is_solved = true ↔ countVal "*" p.marker = 1) := by
  refine ⟨by decide, by decide, by decide, ?_⟩
  intro p
  unfold GridPegSolitairePuzzle.is_solved
  exact beq_iff_eq

/-- C5: the source builds every word-ladder successor with the receiver's own
`_word_set` object (`word_ladder_puzzle.py` line 99) and every peg-solitaire
successor with the receiver's own `_marker_set` object (line 115 and the three
analogous lines); in the value-level model this shows as every successor
carrying exactly the receiver's set, with neither copied. -/
theorem C5_successors_carry_receivers_sets :
    ((WordLadderPuzzle.mk "cost" "lost" doctestWords).extensions.all
      (fun q => q.word_set == doctestWords)) = true ∧
    (WordLadderPuzzle.mk "cost" "lost" doctestWords).extensions.length = 2 ∧
    ((GridPegSolitairePuzzle.mk grid5 ["*", ".", "#"]).extensions.all
      (fun q => q.marker_set == ["*", ".", "#"])) = true := by
  decide

namespace GridPegSolitairePuzzle

theorem gp_chain_bound : ∀ (l : List GridPegSolitairePuzzle) (p : GridPegSolitairePuzzle),
    List.Chain' gpStep (p :: l) → l.length ≤ countVal "*" p.marker := by
  intro l
  induction l with
  | nil => intro p _; simp
  | cons x xs ih =>
    intro p h
    rw [List.chain'_cons] at h
    have h1 := gpStep_pegCount h.1
    have h2 := ih x h.2
    simp only [List.length_cons]
    omega

end GridPegSolitairePuzzle

/-- C9: every peg-solitaire successor has exactly one peg fewer, the same
number of rows, the same row lengths and the same marker set; consequently
the move relation admits no cycle and any chain of successive extensions
starting at `p` has length at most `p`'s peg count. -/
theorem C9_successor_peg_count_dims_acyclic :
    (∀ p q : GridPegSolitairePuzzle, q ∈ p.extensions →
      countVal "*" q.marker + 1 = countVal "*" p.marker ∧
      q.marker.length = p.marker.length ∧
      (∀ i, (q.marker.getD i []).length = (p.marker.getD i []).length) ∧
      q.marker_set = p.marker_set) ∧
    (∀ p : GridPegSolitairePuzzle,
      ¬ Relation.TransGen GridPegSolitairePuzzle.gpStep p p) ∧
    (∀ (p : GridPegSolitairePuzzle) (l : List GridPegSolitairePuzzle),
      List.Chain' GridPegSolitairePuzzle.gpStep (p :: l) →
      l.length ≤ countVal "*" p.marker) := by
  refine ⟨?_, ?_, fun p l h => GridPegSolitairePuzzle.gp_chain_bound l p h⟩
  · intro p q h
    obtain ⟨h1, h2, h3⟩ := GridPegSolitairePuzzle.marker_dims_extensions h
    exact ⟨GridPegSolitairePuzzle.gpStep_pegCount h, h1, h2, h3⟩
  · intro p h
    exact absurd (GridPegSolitairePuzzle.transGen_pegCount h) (lt_irrefl _)

/-- C10: when `from_grid` holds at least one blank, the blank-position scan of
`MNPuzzle.extensions` succeeds (the failure branch is unreachable), the moved
blank is a blank cell, and it is the last blank in row-major order. -/
theorem C10_blank_lookup_last_row_major (p : MNPuzzle)
    (h : 0 < countVal "*" p.from_grid) :
    ∃ r c, MNPuzzle.find_empty_index p.from_grid = some (r, c) ∧
      p.extensions = some (p.moves_at r c) ∧
      getCell p.from_grid r c = "*" ∧
      (∀ r' c', getCell p.from_grid r' c' = "*" →
        (r' < r ∨ (r' = r ∧ c' ≤ c))) := by
  obtain ⟨rc, hrc⟩ := MNPuzzle.find_empty_index_isSome h
  obtain ⟨-, h2, h3⟩ := MNPuzzle.find_empty_index_some hrc
  exact ⟨rc.1, rc.2, hrc, MNPuzzle.extensions_eq_some hrc, h2, h3⟩

/-- Witness for C10 at the 2×2 grid with blanks at (0,0) and (1,1): the scan
succeeds and moves the last blank (1,1). -/
theorem C10_blank_lookup_last_row_major_witness :
    0 < countVal "*" (MNPuzzle.mk [["*", "a"], ["b", "*"]]
      [["a", "b"], ["*", "*"]]).from_grid ∧
    (∃ r c, MNPuzzle.find_empty_index (MNPuzzle.mk [["*", "a"], ["b", "*"]]
        [["a", "b"], ["*", "*"]]).from_grid = some (r, c) ∧
      (MNPuzzle.mk [["*", "a"], ["b", "*"]] [["a", "b"], ["*", "*"]]).extensions =
        some ((MNPuzzle.mk [["*", "a"], ["b", "*"]] [["a", "b"], ["*", "*"]]).moves_at r c) ∧
      getCell (MNPuzzle.mk [["*", "a"], ["b", "*"]]
        [["a", "b"], ["*", "*"]]).from_grid r c = "*" ∧
      (∀ r' c', getCell (MNPuzzle.mk [["*", "a"], ["b", "*"]]
          [["a", "b"], ["*", "*"]]).from_grid r' c' = "*" →
        (r' < r ∨ (r' = r ∧ c' ≤ c)))) :=
  ⟨by decide, C10_blank_lookup_last_row_major
    (MNPuzzle.mk [["*", "a"], ["b", "*"]] [["a", "b"], ["*", "*"]]) (by decide)⟩

/-- C2 counterexample: the 1×2 puzzle with exactly one blank has exactly one
in-bounds orthogonal neighbour, so `extensions()` returns exactly 1 successor,
not 2, 3 or 4. -/
theorem C2_one_by_two_single_successor :
    countVal "*" (MNPuzzle.mk [["*", "a"]] [["a", "*"]]).from_grid = 1 ∧
    (MNPuzzle.extensions (MNPuzzle.mk [["*", "a"]] [["a", "*"]])).map
      List.length = some 1 := by
  decide

/-- C2 (amended): for every well-formed `MNPuzzle` whose `from_grid` holds
exactly one blank, `extensions()` succeeds and returns exactly the
configurations obtained by swapping the blank with one in-bounds orthogonally
adjacent symbol — one successor per in-bounds orthogonal neighbour of the
blank, hence at most 4, and at least 2 when the grid has at least two rows
and two columns — each successor keeping the receiver's `to_grid`. -/
theorem C2_extensions_are_neighbour_swaps (p : MNPuzzle)
    (hv : MNPuzzle.valid p.from_grid p.to_grid = true)
    (h1 : countVal "*" p.from_grid = 1) :
    ∃ r c, MNPuzzle.find_empty_index p.from_grid = some (r, c) ∧
      getCell p.from_grid r c = "*" ∧
      r < p.from_grid.length ∧ c < (p.from_grid.headD []).length ∧
      p.extensions = some (p.moves_at r c) ∧
      (∀ q, q ∈ p.moves_at r c ↔ ∃ r' c', orthAdjacent r c r' c' ∧
        r' < p.from_grid.length ∧ c' < (p.from_grid.headD []).length ∧
        q = MNPuzzle.mk (MNPuzzle.swapCells p.from_grid r c r' c') p.to_grid) ∧
      (∀ q ∈ p.moves_at r c, q.to_grid = p.to_grid) ∧
      (p.moves_at r c).length =
        (if c + 1 < (p.from_grid.headD []).length then 1 else 0) +
        (if 1 ≤ c then 1 else 0) + (if 1 ≤ r then 1 else 0) +
        (if r + 1 < p.from_grid.length then 1 else 0) ∧
      (p.moves_at r c).length ≤ 4 ∧
      (2 ≤ p.from_grid.length → 2 ≤ (p.from_grid.headD []).length →
        2 ≤ (p.moves_at r c).length) := by
  obtain ⟨rc, hrc⟩ := @MNPuzzle.find_empty_index_isSome p.from_grid (by omega)
  obtain ⟨hrlt, hstar, -⟩ := MNPuzzle.find_empty_index_some hrc
  have hin := @getCell_in_range p.from_grid rc.1 rc.2 (by rw [hstar]; decide)
  have hclt : rc.2 < (p.from_grid.headD []).length := by
    rw [← MNPuzzle.valid_rowlen hv hrlt]
    exact hin.2
  refine ⟨rc.1, rc.2, hrc, hstar, hrlt, hclt,
    MNPuzzle.extensions_eq_some hrc, ?_, ?_, ?_, ?_, ?_⟩
  · intro q
    exact MNPuzzle.mem_moves_at hv hrlt hclt
  · intro q hq
    rw [MNPuzzle.mem_moves_at hv hrlt hclt] at hq
    obtain ⟨r', c', -, -, -, rfl⟩ := hq
    rfl
  · rw [MNPuzzle.moves_at_length, MNPuzzle.valid_rowlen hv hrlt]
  · rw [MNPuzzle.moves_at_length]
    split_ifs <;> omega
  · intro h2 h3
    rw [MNPuzzle.moves_at_length, MNPuzzle.valid_rowlen hv hrlt]
    by_cases hA : rc.2 + 1 < (p.from_grid.headD []).length <;>
      by_cases hB : 1 ≤ rc.2 <;> by_cases hC : 1 ≤ rc.1 <;>
        by_cases hD : rc.1 + 1 < p.from_grid.length <;>
          simp only [hA, hB, hC, hD, if_true, if_false, if_pos, if_neg,
            not_false_iff] <;> omega

/-- Witness for C2 at the 2×3 doctest start grid. -/
theorem C2_extensions_are_neighbour_swaps_witness :
    MNPuzzle.valid mn23.from_grid mn23.to_grid = true ∧
    countVal "*" mn23.from_grid = 1 ∧
    (∃ r c, MNPuzzle.find_empty_index mn23.from_grid = some (r, c) ∧
      getCell mn23.from_grid r c = "*" ∧
      r < mn23.from_grid.length ∧ c < (mn23.from_grid.headD []).length ∧
      mn23.extensions = some (mn23.moves_at r c) ∧
      (∀ q, q ∈ mn23.moves_at r c ↔ ∃ r' c', orthAdjacent r c r' c' ∧
        r' < mn23.from_grid.length ∧ c' < (mn23.from_grid.headD []).length ∧
        q = MNPuzzle.mk (MNPuzzle.swapCells mn23.from_grid r c r' c') mn23.to_grid) ∧
      (∀ q ∈ mn23.moves_at r c, q.to_grid = mn23.to_grid) ∧
      (mn23.moves_at r c).length =
        (if c + 1 < (mn23.from_grid.headD []).length then 1 else 0) +
        (if 1 ≤ c then 1 else 0) + (if 1 ≤ r then 1 else 0) +
        (if r + 1 < mn23.from_grid.length then 1 else 0) ∧
      (mn23.moves_at r c).length ≤ 4 ∧
      (2 ≤ mn23.from_grid.length → 2 ≤ (mn23.from_grid.headD []).length →
        2 ≤ (mn23.moves_at r c).length)) :=
  ⟨by decide, by decide,
    C2_extensions_are_neighbour_swaps mn23 (by decide) (by decide)⟩


/-- C3 counterexample: over the dictionary `{"B"}`, the word `"B"` is in the
dictionary, differs from the from-word `"a"` in exactly one character
position and has the same length, yet `extensions()` returns no successor at
all, because the replacement character `"B"` is not one of the lowercase
letters `a`–`z` that the source substitutes. -/
theorem C3_uppercase_neighbour_not_generated :
    WordLadderPuzzle.extensions (WordLadderPuzzle.mk "a" "b" ["B"]) = [] ∧
    ("B" : String) ∈ (WordLadderPuzzle.mk "a" "b" ["B"]).word_set ∧
    ("B" : String) ≠ "a" ∧
    ("B" : String).toList.length = ("a" : String).toList.length ∧
    diff_positions ("B" : String).toList ("a" : String).toList = 1 := by
  decide

/-- C3 (amended): `extensions()` returns exactly the puzzles whose `from_word`
is a dictionary word obtained from the receiver's `from_word` by overwriting
exactly one position with a lowercase letter `a`–`z` and differing from it
(hence a different word of the same length), each successor keeping the
receiver's `to_word` and dictionary; in particular, for the puzzle from
`"cost"` to `"lost"` over the doctest dictionary, the puzzle with `from_word`
`"cast"` is among the extensions. -/
theorem C3_extensions_one_letter_dictionary_words :
    (∀ p q : WordLadderPuzzle, q ∈ p.extensions ↔
      q.to_word = p.to_word ∧ q.word_set = p.word_set ∧
      q.from_word ∈ p.word_set ∧ q.from_word ≠ p.from_word ∧
      (∃ i ch, i < p.from_word.toList.length ∧ ch ∈ WordLadderPuzzle.chars ∧
        q.from_word = String.mk (p.from_word.toList.set i ch))) ∧
    WordLadderPuzzle.mk "cast" "lost" doctestWords ∈
      (WordLadderPuzzle.mk "cost" "lost" doctestWords).extensions := by
  exact ⟨fun p q => WordLadderPuzzle.wl_mem_extensions, by decide⟩

/-- C7 counterexample: the 1×2 all-blank `MNPuzzle` is accepted by the
constructor, and `extensions()` returns a list containing a state equal to
the receiver itself (the swap of the two blanks leaves the grid unchanged,
and the source's `grid != self.from_grid` guard, comparing a list with a
tuple, never filters it out). -/
theorem C7_all_blank_self_successor :
    MNPuzzle.valid [["*", "*"]] [["*", "*"]] = true ∧
    MNPuzzle.extensions (MNPuzzle.mk [["*", "*"]] [["*", "*"]]) =
      some [MNPuzzle.mk [["*", "*"]] [["*", "*"]]] ∧
    MNPuzzle.mk [["*", "*"]] [["*", "*"]] ∈
      [MNPuzzle.mk [["*", "*"]] [["*", "*"]]] := by
  decide

/-- C7 (amended): for every grid peg-solitaire state and every word-ladder
state, and for every well-formed `MNPuzzle` state whose `from_grid` holds at
most one blank, the list returned by `extensions()` contains no two equal
elements and no element equal to the receiver. -/
theorem C7_extensions_nodup_and_no_self :
    (∀ p : GridPegSolitairePuzzle, p.extensions.Nodup ∧ p ∉ p.extensions) ∧
    (∀ (p : MNPuzzle) (l : List MNPuzzle),
      MNPuzzle.valid p.from_grid p.to_grid = true →
      countVal "*" p.from_grid ≤ 1 →
      p.extensions = some l → l.Nodup ∧ p ∉ l) ∧
    (∀ p : WordLadderPuzzle, p.extensions.Nodup ∧ p ∉ p.extensions) := by
  refine ⟨fun p => ⟨GridPegSolitairePuzzle.nodup_extensions p,
    GridPegSolitairePuzzle.self_not_mem_extensions p⟩, ?_,
    fun p => ⟨WordLadderPuzzle.wl_nodup_extensions p,
      WordLadderPuzzle.wl_self_not_mem_extensions p⟩⟩
  intro p l hv hle hext
  unfold MNPuzzle.extensions at hext
  cases hrc : MNPuzzle.find_empty_index p.from_grid with
  | none =>
    rw [hrc] at hext
    exact absurd hext (by simp)
  | some rc =>
    rw [hrc] at hext
    obtain rfl : l = p.moves_at rc.1 rc.2 := by simpa using hext.symm
    obtain ⟨hrlt, hstar, -⟩ := MNPuzzle.find_empty_index_some hrc
    have hin := @getCell_in_range p.from_grid rc.1 rc.2 (by rw [hstar]; decide)
    have h1 : countVal "*" p.from_grid = 1 := by
      have hrow : 1 ≤ (p.from_grid.getD rc.1 []).count "*" :=
        count_getD_pos hin.2 hstar
      have hle2 := @countVal_row_le "*" p.from_grid rc.1 hrlt
      omega
    have hclt : rc.2 < (p.from_grid.headD []).length := by
      rw [← MNPuzzle.valid_rowlen hv hrlt]
      exact hin.2
    exact ⟨MNPuzzle.nodup_moves_at hv h1 hrlt hclt hstar,
      MNPuzzle.self_not_mem_moves_at hv h1 hrlt hclt hstar⟩

/-- C8 counterexample: `MNPuzzle.__init__` accepts a `from_grid` whose
dimensions disagree with `to_grid` (1×2 against 2×1), and
`WordLadderPuzzle.__init__` runs no check at all, accepting words and
dictionary entries with characters far outside `a`–`z`. -/
theorem C8_dimension_mismatch_accepted :
    MNPuzzle.valid [["1", "2"]] [["1"], ["2"]] = true ∧
    ([["1", "2"]] : List (List String)).length ≠
      ([["1"], ["2"]] : List (List String)).length ∧
    WordLadderPuzzle.valid "A1!" "??" ["#!?"] = true := by
  decide

/-- C8 (amended): `GridPegSolitairePuzzle.__init__` rejects empty or ragged
grids, cells outside `marker_set` and marker sets beyond `"*"`, `"."`, `"#"`;
`MNPuzzle.__init__` rejects an empty or ragged `from_grid` and a ragged
`to_grid` but never compares the two grids' dimensions; and
`WordLadderPuzzle.__init__` validates nothing. -/
theorem C8_construction_time_checks :
    (∀ (marker : List (List String)) (ms : List String),
      GridPegSolitairePuzzle.valid marker ms = true ↔
        (0 < marker.length ∧
         (∀ row ∈ marker, row.length = (marker.headD []).length) ∧
         (∀ row ∈ marker, ∀ x ∈ row, x ∈ ms) ∧
         (∀ x ∈ ms, x = "*" ∨ x = "." ∨ x = "#"))) ∧
    (∀ f t : List (List String), MNPuzzle.valid f t = true ↔
        (0 < f.length ∧ (∀ row ∈ f, row.length = (f.headD []).length) ∧
         (∀ row ∈ t, row.length = (t.headD []).length))) ∧
    (∀ (fw tw : String) (ws : List String),
      WordLadderPuzzle.valid fw tw ws = true) := by
  refine ⟨?_, ?_, fun fw tw ws => rfl⟩
  · intro marker ms
    unfold GridPegSolitairePuzzle.valid
    rw [Bool.and_eq_true, Bool.and_eq_true, Bool.and_eq_true]
    simp only [List.all_eq_true, beq_iff_eq, decide_eq_true_eq, Bool.or_eq_true]
    constructor
    · rintro ⟨⟨⟨h0, htail⟩, hcell⟩, hms⟩
      refine ⟨h0, ?_, ?_, ?_⟩
      · intro row hrow
        cases marker with
        | nil => simp at h0
        | cons hd tl =>
          rcases List.mem_cons.mp hrow with rfl | hmem
          · rfl
          · exact htail row hmem
      · intro row hrow x hx
        simpa using hcell row hrow x hx
      · intro x hx
        have := hms x hx
        simp only [Bool.or_eq_true, beq_iff_eq] at this
        tauto
    · rintro ⟨h0, hall, hcells, hms⟩
      refine ⟨⟨⟨h0, ?_⟩, ?_⟩, ?_⟩
      · intro x hxt
        exact hall x (List.mem_of_mem_tail hxt)
      · intro row hrow x hx
        simpa using hcells row hrow x hx
      · intro x hx
        have := hms x hx
        tauto
  · intro f t
    unfold MNPuzzle.valid
    rw [Bool.and_eq_true, Bool.and_eq_true]
    simp only [List.all_eq_true, beq_iff_eq, decide_eq_true_eq]
    constructor
    · rintro ⟨⟨a, b⟩, c⟩
      exact ⟨a, b, c⟩
    · rintro ⟨a, b, c⟩
      exact ⟨⟨a, b⟩, c⟩
